import Mathlib

/-!
Verification development for the signsky repository (point-to-point
IPsec-ESP-style tunnel endpoint).

The definitions below are a shallow embedding of the C sources under
`src/`.  Machine integers are modelled as `Nat` with explicit `% 2^w`
where overflow matters (the only architectures the code compiles on,
per the `#error` in `src/src/ring.c`, are LP64 arm64/x86_64:
`u_int32_t` is 32 bits, `u_int64_t`/`size_t` are 64 bits).  Buffers are
byte lists.  Worker loops are modelled one packet at a time; shared
cells (key slots, anti-replay window, peer address) are threaded as
explicit state, with the CAS transitions collapsed to their sequential
effect (the single-actor CAS of the key-slot protocol always succeeds
when run without interference, and any failing CAS in the source is
`fatal`).
-/

set_option maxRecDepth 40000

namespace Signsky

/-! ### Constants from src/include/signsky.h -/

def SIGNSKY_KEY_LENGTH : Nat := 32
/-- `sizeof(struct signsky_ipsec_hdr)`: 4 (spi) + 4 (seq) + 8 (pn), packed. -/
def SIGNSKY_PACKET_HEAD_LEN : Nat := 16
def SIGNSKY_PACKET_DATA_LEN : Nat := 1500
def SIGNSKY_PACKET_MAX_LEN : Nat := 2048
def SIGNSKY_PACKET_MIN_LEN : Nat := 12
/-- `sizeof(struct signsky_ipsec_tail)`: pad byte + next-proto byte. -/
def SIGNSKY_PACKET_TAIL_LEN : Nat := 2
/-- From src/src/cipher_aes_gcm.c: `CIPHER_AES_GCM_TAG_SIZE`. -/
def CIPHER_AES_GCM_TAG_SIZE : Nat := 16

def SIGNSKY_PROC_CLEAR : Nat := 1
def SIGNSKY_PROC_CRYPTO : Nat := 2
def SIGNSKY_PROC_ENCRYPT : Nat := 3
def SIGNSKY_PROC_DECRYPT : Nat := 4

def SIGNSKY_KEY_EMPTY : Nat := 0
def SIGNSKY_KEY_GENERATING : Nat := 1
def SIGNSKY_KEY_PENDING : Nat := 2
def SIGNSKY_KEY_INSTALLING : Nat := 3

/-- Modelled from the spec: `SIGNSKY_ARWIN_SIZE` is referenced by
src/src/decrypt.c and src/src/crypto.c but its definition is missing from
this snapshot's signsky.h; the spec fixes the anti-replay window to a
64-bit bitmap (bit index 0..63, reset value `1<<63`). -/
def SIGNSKY_ARWIN_SIZE : Nat := 64

/-- `IPPROTO_IP` is 0 (system header constant used by decrypt.c). -/
def IPPROTO_IP : Nat := 0
/-- `IPPROTO_IPV4` is 4 (system header constant used by encrypt.c). -/
def IPPROTO_IPV4 : Nat := 4

def U32_MOD : Nat := 2 ^ 32
def U64_MOD : Nat := 2 ^ 64

/-! ### Bytes and endianness

The wire format is a byte sequence.  A C struct member assignment such
as `hdr->pn = v` stores the bytes of `v` in host order; `be64toh`
applied to a loaded integer amounts to parsing the underlying bytes
big-endian.  Both supported target architectures are little-endian, but
we keep the host order as a parameter so that byte-order claims can be
settled for every host. -/

inductive Endian where
  | big : Endian
  | little : Endian
deriving DecidableEq

/-- `w`-byte big-endian encoding of `v % 256^w`, most significant byte first. -/
def bytesBE : Nat → Nat → List Nat
  | 0, _ => []
  | w + 1, v => bytesBE w (v / 256) ++ [v % 256]

/-- `w`-byte little-endian encoding, least significant byte first. -/
def bytesLE (w v : Nat) : List Nat :=
  (bytesBE w v).reverse

/-- The in-memory bytes of a `w`-byte integer on a host of endianness `e`. -/
def hostBytes (e : Endian) (w v : Nat) : List Nat :=
  match e with
  | .big => bytesBE w v
  | .little => bytesLE w v

/-- Parse a byte list as a big-endian integer (what `be32toh`/`be64toh`
compute on a value loaded from those bytes). -/
def parseBE (l : List Nat) : Nat :=
  l.foldl (fun acc b => acc * 256 + b) 0

/-- Read `n` bytes at offset `off` of a buffer. -/
def readBytes (buf : List Nat) (off n : Nat) : List Nat :=
  (buf.drop off).take n

/-- Overwrite the bytes at offset `off` of a buffer. -/
def writeBytes (buf : List Nat) (off : Nat) (bs : List Nat) : List Nat :=
  buf.take off ++ bs ++ buf.drop (off + bs.length)

theorem bytesBE_length (w v : Nat) : (bytesBE w v).length = w := by
  induction w generalizing v with
  | zero => rfl
  | succ w ih => simp [bytesBE, ih]

theorem parseBE_append_one (l : List Nat) (b : Nat) :
    parseBE (l ++ [b]) = parseBE l * 256 + b := by
  simp [parseBE, List.foldl_append]

/-- Parsing the big-endian encoding of a value below `256^w` recovers it. -/
theorem parseBE_bytesBE (w v : Nat) (h : v < 256 ^ w) :
    parseBE (bytesBE w v) = v := by
  induction w generalizing v with
  | zero =>
    interval_cases v
    rfl
  | succ w ih =>
    have hdiv : v / 256 < 256 ^ w := by
      rw [Nat.div_lt_iff_lt_mul (by norm_num)]
      calc v < 256 ^ (w + 1) := h
        _ = 256 ^ w * 256 := by ring
    rw [bytesBE, parseBE_append_one, ih _ hdiv]
    omega

/-! ### The anti-replay window (src/src/decrypt.c)

The shared cell `struct signsky_arwin` (allocated in src/src/proc.c) holds
the 64-bit `bitmap` and the high-water mark `last`; both are `u_int64_t`.
The parsed ESP header values that `decrypt_arwin_check` and
`decrypt_arwin_update` read through `struct signsky_ipsec_hdr *` after
`decrypt_packet_process` converted them with `be32toh`/`be64toh`. -/

structure ArWin where
  last : Nat
  bitmap : Nat
deriving DecidableEq

/-- The parsed header fields (`hdr->esp.spi`, `hdr->esp.seq`, `hdr->pn`
after the byte-order conversion in `decrypt_packet_process`). -/
structure HdrV where
  spi : Nat
  seq : Nat
  pn : Nat
deriving DecidableEq

/-- `decrypt_arwin_check` from src/src/decrypt.c lines 251-276.
Returns 0 for accept and -1 for reject.  `last - pn` is `u_int64_t`
subtraction; it is only reached when `pn ≤ last`, where it agrees with
truncated `Nat` subtraction. -/
def decrypt_arwin_check (aw : ArWin) (hdr : HdrV) : Int :=
  if hdr.pn % U32_MOD ≠ hdr.seq then -1
  else if hdr.pn > aw.last then 0
  else if hdr.pn > 0 ∧ SIGNSKY_ARWIN_SIZE > aw.last - hdr.pn then
    if aw.bitmap &&& ((1 : Nat) <<< ((SIGNSKY_ARWIN_SIZE - 1) - (aw.last - hdr.pn))) ≠ 0
    then -1 else 0
  else -1

/-- `decrypt_arwin_update` from src/src/decrypt.c lines 281-306.
The `fatal("window corrupt")` cross-check is unreachable (its guard
`last < pn` is in the branch where `¬(pn > last)`), so the function is
total. -/
def decrypt_arwin_update (aw : ArWin) (hdr : HdrV) : ArWin :=
  if hdr.pn > aw.last then
    if hdr.pn - aw.last ≥ SIGNSKY_ARWIN_SIZE then
      { last := hdr.pn, bitmap := (1 : Nat) <<< 63 }
    else
      { last := hdr.pn,
        bitmap := (aw.bitmap >>> (hdr.pn - aw.last)) ||| ((1 : Nat) <<< 63) }
  else
    { aw with
      bitmap := aw.bitmap ||| ((1 : Nat) <<< ((SIGNSKY_ARWIN_SIZE - 1) - (aw.last - hdr.pn))) }

/-- The pre-check as the claim words it: ordered cascade
accept if `pn > last`; reject if `pn = 0`; if `last - pn < 64` accept
exactly when bit `63 - (last - pn)` is clear; reject otherwise. -/
def arwinCheckClaim (aw : ArWin) (hdr : HdrV) : Int :=
  if hdr.pn > aw.last then 0
  else if hdr.pn = 0 then -1
  else if aw.last - hdr.pn < 64 then
    if aw.bitmap.testBit (63 - (aw.last - hdr.pn)) then -1 else 0
  else -1

/-- The post-accept update as the claim words it. -/
def arwinUpdateClaim (aw : ArWin) (hdr : HdrV) : ArWin :=
  if hdr.pn > aw.last then
    { last := hdr.pn,
      bitmap :=
        if hdr.pn - aw.last ≥ 64 then 2 ^ 63
        else (aw.bitmap >>> (hdr.pn - aw.last)) ||| 2 ^ 63 }
  else
    { last := aw.last, bitmap := aw.bitmap ||| 2 ^ (63 - (aw.last - hdr.pn)) }

theorem and_shift_ne_iff_testBit (n i : Nat) :
    (n &&& ((1 : Nat) <<< i) ≠ 0) ↔ n.testBit i := by
  rw [Nat.shiftLeft_eq, one_mul, Nat.and_two_pow]
  cases h : n.testBit i <;> simp [h, (Nat.two_pow_pos i).ne']

/-- Claim C3: for every window state and received packet number whose low
32 bits match the truncated sequence, `decrypt_arwin_check` accepts when
`pn > last`, rejects `pn = 0`, for `last - pn < 64` accepts exactly when
bit `63 - (last - pn)` of the bitmap is clear, and rejects every other
case; in particular `pn = last - 63` is accepted once and rejected on
replay, and `pn = last - 64` is always rejected. -/
theorem C3_arwin_precheck :
    (∀ (aw : ArWin) (hdr : HdrV), hdr.pn % U32_MOD = hdr.seq →
      decrypt_arwin_check aw hdr = arwinCheckClaim aw hdr) ∧
    (∀ (aw : ArWin) (hdr : HdrV), hdr.pn % U32_MOD = hdr.seq →
      64 ≤ aw.last → hdr.pn = aw.last - 63 → ¬ aw.bitmap.testBit 0 →
      decrypt_arwin_check aw hdr = 0 ∧
      decrypt_arwin_check (decrypt_arwin_update aw hdr) hdr = -1) ∧
    (∀ (aw : ArWin) (hdr : HdrV), hdr.pn % U32_MOD = hdr.seq →
      64 ≤ aw.last → hdr.pn = aw.last - 64 →
      decrypt_arwin_check aw hdr = -1) := by
  refine ⟨?_, ?_, ?_⟩
  · intro aw hdr hmatch
    unfold decrypt_arwin_check arwinCheckClaim SIGNSKY_ARWIN_SIZE
    rw [if_neg (by simp [hmatch])]
    by_cases h1 : hdr.pn > aw.last
    · simp [h1]
    · rw [if_neg h1, if_neg h1]
      by_cases h2 : hdr.pn = 0
      · simp [h2]
      · rw [if_neg h2]
        by_cases h3 : aw.last - hdr.pn < 64
        · rw [if_pos (show hdr.pn > 0 ∧ 64 > aw.last - hdr.pn by omega), if_pos h3]
          simp only [and_shift_ne_iff_testBit,
            show (64 : Nat) - 1 = 63 by norm_num]
        · rw [if_neg (show ¬ (hdr.pn > 0 ∧ 64 > aw.last - hdr.pn) by omega), if_neg h3]
  · intro aw hdr hmatch hlast hpn hbit
    have hacc : decrypt_arwin_check aw hdr = 0 := by
      unfold decrypt_arwin_check SIGNSKY_ARWIN_SIZE
      rw [if_neg (by simp [hmatch]), if_neg (by omega), if_pos (by omega),
        if_neg]
      rw [and_shift_ne_iff_testBit]
      have h0 : (64 : Nat) - 1 - (aw.last - hdr.pn) = 0 := by omega
      rw [h0]
      exact hbit
    refine ⟨hacc, ?_⟩
    have hnot : ¬ hdr.pn > aw.last := by omega
    unfold decrypt_arwin_update
    rw [if_neg hnot]
    unfold decrypt_arwin_check SIGNSKY_ARWIN_SIZE
    rw [if_neg (by simp [hmatch]), if_neg hnot,
      if_pos (show hdr.pn > 0 ∧ 64 > aw.last - hdr.pn by omega), if_pos]
    rw [and_shift_ne_iff_testBit]
    simp only [Nat.testBit_lor, Nat.shiftLeft_eq, one_mul,
      Nat.testBit_two_pow_self]
    simp
  · intro aw hdr hmatch hlast hpn
    unfold decrypt_arwin_check SIGNSKY_ARWIN_SIZE
    rw [if_neg (by simp [hmatch]), if_neg (by omega), if_neg (by omega)]

/-- Witness for C3 at concrete window states: `last = 100`, empty bitmap,
`pn = 37 = last - 63` accepted then rejected on replay, `pn = 36 = last - 64`
rejected. -/
theorem C3_arwin_precheck_witness :
    decrypt_arwin_check ⟨100, 0⟩ ⟨9, 37, 37⟩ = arwinCheckClaim ⟨100, 0⟩ ⟨9, 37, 37⟩ ∧
    decrypt_arwin_check ⟨100, 0⟩ ⟨9, 37, 37⟩ = 0 ∧
    decrypt_arwin_check (decrypt_arwin_update ⟨100, 0⟩ ⟨9, 37, 37⟩) ⟨9, 37, 37⟩ = -1 ∧
    decrypt_arwin_check ⟨100, 0⟩ ⟨9, 36, 36⟩ = -1 :=
  ⟨C3_arwin_precheck.1 ⟨100, 0⟩ ⟨9, 37, 37⟩ (by decide),
   (C3_arwin_precheck.2.1 ⟨100, 0⟩ ⟨9, 37, 37⟩ (by decide) (by decide)
     (by decide) (by decide)).1,
   (C3_arwin_precheck.2.1 ⟨100, 0⟩ ⟨9, 37, 37⟩ (by decide) (by decide)
     (by decide) (by decide)).2,
   C3_arwin_precheck.2.2 ⟨100, 0⟩ ⟨9, 36, 36⟩ (by decide) (by decide) (by decide)⟩

/-- Claim C4: for every window state and accepted packet number,
`decrypt_arwin_update` produces exactly the state the claim describes,
and re-running the pre-check on the same packet number immediately after
the update rejects it (one accept, one reject). -/
theorem C4_arwin_update (aw : ArWin) (hdr : HdrV)
    (hacc : decrypt_arwin_check aw hdr = 0) :
    decrypt_arwin_update aw hdr = arwinUpdateClaim aw hdr ∧
    decrypt_arwin_check (decrypt_arwin_update aw hdr) hdr = -1 := by
  have hmatch : hdr.pn % U32_MOD = hdr.seq := by
    by_contra hne
    simp [decrypt_arwin_check, hne] at hacc
  constructor
  · unfold decrypt_arwin_update arwinUpdateClaim SIGNSKY_ARWIN_SIZE
    split_ifs <;> simp [Nat.shiftLeft_eq]
  · by_cases h1 : hdr.pn > aw.last
    · have hpn : 0 < hdr.pn := by omega
      unfold decrypt_arwin_update
      rw [if_pos h1]
      by_cases hd : hdr.pn - aw.last ≥ SIGNSKY_ARWIN_SIZE
      · rw [if_pos hd]
        unfold decrypt_arwin_check SIGNSKY_ARWIN_SIZE
        rw [if_neg (by simp [hmatch]), if_neg (by simp),
          if_pos (show hdr.pn > 0 ∧ 64 > hdr.pn - hdr.pn by omega), if_pos]
        have h63 : (64 : Nat) - 1 - (hdr.pn - hdr.pn) = 63 := by omega
        rw [and_shift_ne_iff_testBit, h63, Nat.shiftLeft_eq, one_mul]
        exact Nat.testBit_two_pow_self
      · rw [if_neg hd]
        unfold decrypt_arwin_check SIGNSKY_ARWIN_SIZE
        rw [if_neg (by simp [hmatch]), if_neg (by simp),
          if_pos (show hdr.pn > 0 ∧ 64 > hdr.pn - hdr.pn by omega), if_pos]
        have h63 : (64 : Nat) - 1 - (hdr.pn - hdr.pn) = 63 := by omega
        rw [and_shift_ne_iff_testBit, h63]
        simp only [Nat.testBit_lor, Nat.shiftLeft_eq, one_mul,
          Nat.testBit_two_pow_self]
        simp
    · -- in-window accept: pn ≤ last, the pre-check took the bitmap branch
      have hcond : hdr.pn > 0 ∧ SIGNSKY_ARWIN_SIZE > aw.last - hdr.pn := by
        by_contra hc
        simp [decrypt_arwin_check, hmatch, h1, hc] at hacc
      unfold decrypt_arwin_update
      rw [if_neg h1]
      unfold decrypt_arwin_check
      rw [if_neg (by simp [hmatch]), if_neg (by simpa using h1),
        if_pos (by exact hcond), if_pos]
      rw [and_shift_ne_iff_testBit]
      simp only [Nat.testBit_lor, Nat.shiftLeft_eq, one_mul,
        Nat.testBit_two_pow_self]
      simp

/-- Witness for C4: window `last = 5`, bitmap with bit 63 set, accepted
future packet `pn = 6`. -/
theorem C4_arwin_update_witness :
    decrypt_arwin_update ⟨5, 2 ^ 63⟩ ⟨9, 6, 6⟩ = arwinUpdateClaim ⟨5, 2 ^ 63⟩ ⟨9, 6, 6⟩ ∧
    decrypt_arwin_check (decrypt_arwin_update ⟨5, 2 ^ 63⟩ ⟨9, 6, 6⟩) ⟨9, 6, 6⟩ = -1 :=
  C4_arwin_update ⟨5, 2 ^ 63⟩ ⟨9, 6, 6⟩ (by decide)

/-! ### Key slots and SA install (src/src/utils.c, src/src/cipher_aes_gcm.c,
src/src/encrypt.c, src/src/decrypt.c) -/

/-- `struct signsky_key`: the shared hand-off cell. -/
structure KeySlot where
  spi : Nat
  state : Nat
  key : List Nat
deriving DecidableEq

/-- `struct signsky_sa` (decrypt side local state; encrypt.c has an
identical anonymous struct, modelled separately as `TxState`). -/
structure SA where
  spi : Nat
  salt : Nat
  seqnr : Nat
  cipher : Option (List Nat)
deriving DecidableEq

/-- The anonymous TX `state` struct of src/src/encrypt.c lines 35-40. -/
structure TxState where
  spi : Nat
  salt : Nat
  seqnr : Nat
  cipher : Option (List Nat)
deriving DecidableEq

/-- `signsky_cipher_setup` from src/src/cipher_aes_gcm.c lines 50-70.  The
AES-256 key expansion and `GCM128_CONTEXT` creation are opaque OpenSSL
primitives (the cipher itself is out of scope per the spec); the returned
context is represented by the key bytes it was derived from.  The
function wipes the shared key bytes with `signsky_mem_zero` before
returning. -/
def signsky_cipher_setup (key : KeySlot) : List Nat × KeySlot :=
  (key.key, { key with key := List.replicate key.key.length 0 })

/-- `signsky_key_install` from src/src/utils.c lines 32-59, sequential
effect.  Each CAS is single-actor and succeeds when run without
interference (a failing CAS is `fatal`), so the two state transitions
collapse to `PENDING → EMPTY`.  Returns the updated shared slot, the
updated SA, and the C return value.  Note the source sets
`sa->seqnr = 1` unconditionally, for the RX caller as well. -/
def signsky_key_install (key : KeySlot) (sa : SA) : KeySlot × SA × Int :=
  if key.state ≠ SIGNSKY_KEY_PENDING then (key, sa, -1)
  else
    let setup := signsky_cipher_setup key
    let key2 := { setup.2 with
                  key := List.replicate setup.2.key.length 0,
                  state := SIGNSKY_KEY_EMPTY }
    (key2, { sa with cipher := some setup.1, seqnr := 1, spi := key.spi }, 0)

/-- `decrypt_keys_install` from src/src/decrypt.c lines 121-137: while
`slot_1` has no cipher context, install into `slot_1`; afterwards pending
keys go to `slot_2`.  (The `signsky->rx.spi` counter write is
observability only and not modelled.) -/
def decrypt_keys_install (rx : KeySlot) (slot1 slot2 : SA) :
    KeySlot × SA × SA :=
  if slot1.cipher = none then
    let r := signsky_key_install rx slot1
    (r.1, r.2.1, slot2)
  else
    let r := signsky_key_install rx slot2
    (r.1, slot1, r.2.1)

/-- `encrypt_install_pending` from src/src/encrypt.c lines 176-200,
sequential effect.  Unlike `signsky_key_install` it does not wipe the
shared key bytes itself; only `signsky_cipher_setup` does. -/
def encrypt_install_pending (tx : KeySlot) (st : TxState) :
    KeySlot × TxState :=
  if tx.state ≠ SIGNSKY_KEY_PENDING then (tx, st)
  else
    let setup := signsky_cipher_setup tx
    ({ setup.2 with state := SIGNSKY_KEY_EMPTY },
     { st with cipher := some setup.1, seqnr := 1, spi := tx.spi })

/-- Counterexample to C6: installing a PENDING key on the RX (decrypt)
side sets the local SA's `seqnr` to 1, not 0 — `signsky_key_install`
assigns `sa->seqnr = 1` unconditionally and decrypt.c installs through
it. -/
theorem C6_rx_seqnr_one_counterexample :
    ((decrypt_keys_install
        ⟨0x11223344, SIGNSKY_KEY_PENDING, List.replicate 32 7⟩
        ⟨0, 0, 0, none⟩ ⟨0, 0, 0, none⟩).2.1).seqnr = 1 ∧
    ¬ ((decrypt_keys_install
        ⟨0x11223344, SIGNSKY_KEY_PENDING, List.replicate 32 7⟩
        ⟨0, 0, 0, none⟩ ⟨0, 0, 0, none⟩).2.1).seqnr = 0 := by
  refine ⟨rfl, by decide⟩

/-- Claim C6 (amended): every successful key install from a PENDING slot
sets the local SA's `spi` to the slot's SPI and its `seqnr` to 1, on the
TX (encrypt) and the RX (decrypt) side alike. -/
theorem C6_install_sets_spi_and_seqnr_one (k : KeySlot) (st : TxState)
    (sa : SA) (h : k.state = SIGNSKY_KEY_PENDING) :
    ((encrypt_install_pending k st).2.spi = k.spi ∧
     (encrypt_install_pending k st).2.seqnr = 1) ∧
    ((signsky_key_install k sa).2.1.spi = k.spi ∧
     (signsky_key_install k sa).2.1.seqnr = 1) := by
  unfold encrypt_install_pending signsky_key_install
  rw [if_neg (by simp [h]), if_neg (by simp [h])]
  exact ⟨⟨rfl, rfl⟩, ⟨rfl, rfl⟩⟩

/-- Witness for the amended C6 at a concrete PENDING slot. -/
theorem C6_install_sets_spi_and_seqnr_one_witness :
    ((encrypt_install_pending ⟨5, SIGNSKY_KEY_PENDING, List.replicate 32 1⟩
        ⟨0, 0, 0, none⟩).2.spi = 5 ∧
     (encrypt_install_pending ⟨5, SIGNSKY_KEY_PENDING, List.replicate 32 1⟩
        ⟨0, 0, 0, none⟩).2.seqnr = 1) ∧
    ((signsky_key_install ⟨5, SIGNSKY_KEY_PENDING, List.replicate 32 1⟩
        ⟨0, 0, 0, none⟩).2.1.spi = 5 ∧
     (signsky_key_install ⟨5, SIGNSKY_KEY_PENDING, List.replicate 32 1⟩
        ⟨0, 0, 0, none⟩).2.1.seqnr = 1) :=
  C6_install_sets_spi_and_seqnr_one
    ⟨5, SIGNSKY_KEY_PENDING, List.replicate 32 1⟩ ⟨0, 0, 0, none⟩
    ⟨0, 0, 0, none⟩ rfl

/-- Claim C7: if the shared slot is not PENDING, `signsky_key_install`
returns "no work" (-1) leaving slot and SA unchanged; if it is PENDING,
after the install every key byte in the shared slot is zero and the slot
state is EMPTY. -/
theorem C7_install_no_work_and_wipe (k : KeySlot) (sa : SA) :
    (k.state ≠ SIGNSKY_KEY_PENDING →
      signsky_key_install k sa = (k, sa, -1)) ∧
    (k.state = SIGNSKY_KEY_PENDING →
      (signsky_key_install k sa).1.key = List.replicate k.key.length 0 ∧
      (signsky_key_install k sa).1.state = SIGNSKY_KEY_EMPTY ∧
      (signsky_key_install k sa).2.2 = 0) := by
  constructor
  · intro h
    unfold signsky_key_install
    rw [if_pos h]
  · intro h
    unfold signsky_key_install
    rw [if_neg (by simp [h])]
    refine ⟨?_, rfl, rfl⟩
    simp [signsky_cipher_setup]

/-- Witness for C7: the PENDING branch wipes a concrete nonzero key and a
non-PENDING (EMPTY) slot is returned untouched. -/
theorem C7_install_no_work_and_wipe_witness :
    (signsky_key_install ⟨8, SIGNSKY_KEY_EMPTY, List.replicate 32 9⟩
        ⟨1, 2, 3, none⟩ =
      (⟨8, SIGNSKY_KEY_EMPTY, List.replicate 32 9⟩, ⟨1, 2, 3, none⟩, -1)) ∧
    ((signsky_key_install ⟨8, SIGNSKY_KEY_PENDING, List.replicate 32 9⟩
        ⟨1, 2, 3, none⟩).1.key = List.replicate 32 0 ∧
     (signsky_key_install ⟨8, SIGNSKY_KEY_PENDING, List.replicate 32 9⟩
        ⟨1, 2, 3, none⟩).1.state = SIGNSKY_KEY_EMPTY) := by
  refine ⟨?_, ?_, ?_⟩
  · exact (C7_install_no_work_and_wipe
      ⟨8, SIGNSKY_KEY_EMPTY, List.replicate 32 9⟩ ⟨1, 2, 3, none⟩).1
      (by decide)
  · have h := (C7_install_no_work_and_wipe
      ⟨8, SIGNSKY_KEY_PENDING, List.replicate 32 9⟩ ⟨1, 2, 3, none⟩).2 rfl
    simpa using h.1
  · exact ((C7_install_no_work_and_wipe
      ⟨8, SIGNSKY_KEY_PENDING, List.replicate 32 9⟩ ⟨1, 2, 3, none⟩).2 rfl).2.1

/-! ### The MPMC ring queue (src/src/ring.c), sequential model

Cursors are `u_int32_t`; `ring->elm` is `size_t`.  The supported
architectures are LP64, so the C expression `ring->elm + (tail - head)`
widens the u32 cursor difference to 64 bits before adding the capacity.
Concurrency is collapsed to the sequential (quiescent) effect: the claim
CAS succeeds and the ordered-publish spin completes immediately, so both
cursors of a side advance together. -/

structure Ring where
  elm : Nat
  mask : Nat
  phead : Nat
  ptail : Nat
  chead : Nat
  ctail : Nat
  data : List Nat
deriving DecidableEq

/-- u32 wraparound difference `a - b` (operands already reduced mod 2^32). -/
def sub32 (a b : Nat) : Nat :=
  (a + U32_MOD - b % U32_MOD) % U32_MOD

/-- `signsky_ring_init` from src/src/ring.c lines 65-75: `memset` to zero,
then `elm`/`mask`.  The `PRECOND(elm > 0 && (elm & (elm - 1)) == 0)` is
`fatal` when violated, modelled as `none`.  Note the source checks only
the power-of-two condition, not `elm <= 4096`. -/
def signsky_ring_init (elm : Nat) : Option Ring :=
  if elm > 0 ∧ elm &&& (elm - 1) = 0 then
    some { elm := elm, mask := elm - 1, phead := 0, ptail := 0,
           chead := 0, ctail := 0, data := List.replicate 4096 0 }
  else none

/-- `signsky_ring_queue` from src/src/ring.c lines 147-170, sequential
effect.  The full test mirrors `(ring->elm + (tail - head)) == 0` with
the LP64 widening. -/
def signsky_ring_queue (r : Ring) (ptr : Nat) : Ring × Int :=
  if (r.elm + sub32 r.ctail r.phead) % U64_MOD = 0 then (r, -1)
  else
    let next := (r.phead + 1) % U32_MOD
    let r' := { r with data := r.data.set (r.phead &&& r.mask) ptr,
                       phead := next,
                       ptail := next }
    (r', 0)

/-- `signsky_ring_dequeue` from src/src/ring.c lines 115-141, sequential
effect. -/
def signsky_ring_dequeue (r : Ring) : Ring × Option Nat :=
  if sub32 r.ptail r.chead = 0 then (r, none)
  else
    let next := (r.chead + 1) % U32_MOD
    let r' := { r with chead := next, ctail := next }
    (r', some (r.data.getD (r.chead &&& r.mask) 0))

/-- `signsky_ring_pending` from src/src/ring.c lines 81-92. -/
def signsky_ring_pending (r : Ring) : Nat :=
  sub32 r.ptail r.chead

/-- `signsky_ring_available` from src/src/ring.c lines 98-109: the u32
difference `consumer.tail - producer.head` is widened to `size_t` and
`ring->elm` added in 64-bit arithmetic. -/
def signsky_ring_available (r : Ring) : Nat :=
  (r.elm + sub32 r.ctail r.phead) % U64_MOD

/-- One enqueue/dequeue operation of a test harness run. -/
inductive RingOp where
  | enq (v : Nat) : RingOp
  | deq : RingOp

/-- Execute one operation, counting successful enqueues and dequeues. -/
def ringStep (t : Ring × Nat × Nat) (op : RingOp) : Ring × Nat × Nat :=
  match op with
  | .enq v =>
    let q := signsky_ring_queue t.1 v
    (q.1, if q.2 = 0 then t.2.1 + 1 else t.2.1, t.2.2)
  | .deq =>
    let q := signsky_ring_dequeue t.1
    (q.1, t.2.1, if q.2.isSome then t.2.2 + 1 else t.2.2)

/-- Execute a sequence of operations from a given state. -/
def ringExec (t : Ring × Nat × Nat) (ops : List RingOp) : Ring × Nat × Nat :=
  ops.foldl ringStep t

/-- The sequential cursor invariant: both producer cursors equal the
successful-enqueue count mod 2^32, both consumer cursors the
successful-dequeue count, and dequeues never exceed enqueues. -/
def ringInv (t : Ring × Nat × Nat) : Prop :=
  t.1.phead = t.2.1 % U32_MOD ∧ t.1.ptail = t.2.1 % U32_MOD ∧
  t.1.chead = t.2.2 % U32_MOD ∧ t.1.ctail = t.2.2 % U32_MOD ∧
  t.2.2 ≤ t.2.1

theorem ringStep_inv (t : Ring × Nat × Nat) (op : RingOp)
    (h : ringInv t) : ringInv (ringStep t op) := by
  obtain ⟨r, e, d⟩ := t
  obtain ⟨h1, h2, h3, h4, h5⟩ := h
  dsimp only at h1 h2 h3 h4 h5
  cases op with
  | enq v =>
    by_cases hfull : (r.elm + sub32 r.ctail r.phead) % U64_MOD = 0
    · have hq : signsky_ring_queue r v = (r, -1) := by
        unfold signsky_ring_queue
        rw [if_pos hfull]
      show ringInv (ringStep (r, e, d) (RingOp.enq v))
      unfold ringStep ringInv
      dsimp only
      rw [hq]
      norm_num
      exact ⟨h1, h2, h3, h4, h5⟩
    · have hq2 : (signsky_ring_queue r v).2 = 0 := by
        unfold signsky_ring_queue
        rw [if_neg hfull]
      have hph : (signsky_ring_queue r v).1.phead = (r.phead + 1) % U32_MOD := by
        unfold signsky_ring_queue
        rw [if_neg hfull]
      have hpt : (signsky_ring_queue r v).1.ptail = (r.phead + 1) % U32_MOD := by
        unfold signsky_ring_queue
        rw [if_neg hfull]
      have hch : (signsky_ring_queue r v).1.chead = r.chead := by
        unfold signsky_ring_queue
        rw [if_neg hfull]
      have hct : (signsky_ring_queue r v).1.ctail = r.ctail := by
        unfold signsky_ring_queue
        rw [if_neg hfull]
      show ringInv (ringStep (r, e, d) (RingOp.enq v))
      unfold ringStep ringInv
      dsimp only
      rw [hq2]
      norm_num
      refine ⟨?_, ?_, ?_, ?_, ?_⟩
      · rw [hph, h1]
        unfold U32_MOD
        omega
      · rw [hpt, h1]
        unfold U32_MOD
        omega
      · rw [hch, h3]
      · rw [hct, h4]
      · omega
  | deq =>
    by_cases hemp : sub32 r.ptail r.chead = 0
    · have hq : signsky_ring_dequeue r = (r, none) := by
        unfold signsky_ring_dequeue
        rw [if_pos hemp]
      show ringInv (ringStep (r, e, d) RingOp.deq)
      unfold ringStep ringInv
      dsimp only
      rw [hq]
      norm_num
      exact ⟨h1, h2, h3, h4, h5⟩
    · have hde : d < e := by
        rw [h2, h3] at hemp
        unfold sub32 U32_MOD at hemp
        rcases Nat.lt_or_ge d e with hlt | hge
        · exact hlt
        · have hde' : d = e := le_antisymm h5 hge
          exact absurd (by rw [hde']; omega) hemp
      have hqs : (signsky_ring_dequeue r).2.isSome = true := by
        unfold signsky_ring_dequeue
        rw [if_neg hemp]
        rfl
      have hph : (signsky_ring_dequeue r).1.phead = r.phead := by
        unfold signsky_ring_dequeue
        rw [if_neg hemp]
      have hpt : (signsky_ring_dequeue r).1.ptail = r.ptail := by
        unfold signsky_ring_dequeue
        rw [if_neg hemp]
      have hch : (signsky_ring_dequeue r).1.chead = (r.chead + 1) % U32_MOD := by
        unfold signsky_ring_dequeue
        rw [if_neg hemp]
      have hct : (signsky_ring_dequeue r).1.ctail = (r.chead + 1) % U32_MOD := by
        unfold signsky_ring_dequeue
        rw [if_neg hemp]
      show ringInv (ringStep (r, e, d) RingOp.deq)
      unfold ringStep ringInv
      dsimp only
      rw [hqs]
      norm_num
      refine ⟨?_, ?_, ?_, ?_, ?_⟩
      · rw [hph, h1]
      · rw [hpt, h2]
      · rw [hch, h3]
        unfold U32_MOD
        omega
      · rw [hct, h3]
        unfold U32_MOD
        omega
      · omega

/-- Supporting invariant for C5: for every operation sequence on a freshly
initialized ring, the number of successful dequeues never exceeds the
number of successful enqueues. -/
theorem ring_dequeues_le_enqueues (c : Nat) (r0 : Ring) (ops : List RingOp)
    (h : signsky_ring_init c = some r0) :
    (ringExec (r0, 0, 0) ops).2.2 ≤ (ringExec (r0, 0, 0) ops).2.1 := by
  have h0 : ringInv (r0, 0, 0) := by
    unfold signsky_ring_init at h
    split at h
    · cases h
      exact ⟨rfl, rfl, rfl, rfl, le_refl 0⟩
    · cases h
  have hall : ∀ (l : List RingOp) (t : Ring × Nat × Nat),
      ringInv t → ringInv (ringExec t l) := by
    intro l
    induction l with
    | nil => intro t ht; exact ht
    | cons op l ih =>
      intro t ht
      exact ih _ (ringStep_inv t op ht)
  exact (hall ops _ h0).2.2.2.2

/-- The concrete capacity-16 ring for the C5 evaluation. -/
def ringC5 : Ring :=
  { elm := 16, mask := 15, phead := 0, ptail := 0, chead := 0, ctail := 0,
    data := List.replicate 4096 0 }

/-- Claim C5, evaluated at the failing state: on a freshly initialized
capacity-16 ring with one successful enqueue and no dequeue (a quiescent
point), `pending` is 1 but `available` is `16 + 2^32 - 1`, so
`pending + available` is `2^32 + 16`, not the capacity 16. -/
theorem C5_pending_available_bug :
    signsky_ring_init 16 = some ringC5 ∧
    (signsky_ring_queue ringC5 42).2 = 0 ∧
    signsky_ring_pending (signsky_ring_queue ringC5 42).1 = 1 ∧
    signsky_ring_available (signsky_ring_queue ringC5 42).1 =
      16 + (2 ^ 32 - 1) ∧
    signsky_ring_pending (signsky_ring_queue ringC5 42).1 +
      signsky_ring_available (signsky_ring_queue ringC5 42).1 ≠ 16 := by
  refine ⟨rfl, rfl, rfl, rfl, by decide⟩

/-- Claim C8, evaluated at the failing input: `signsky_ring_init` accepts
capacity 8192, a power of two greater than 4096, although ring.c's own
comment states the capacity "must maximum be 4096" and that this "is
checked in the signsky_ring_init() function". -/
theorem C8_init_accepts_8192 :
    (signsky_ring_init 8192).isSome = true ∧ ¬ (8192 ≤ 4096) := by
  refine ⟨rfl, by decide⟩

/-! ### Packets (src/include/signsky.h, src/src/packet.c)

`struct signsky_packet` as the worker sources use it: `length`, `target`,
the receive source address (`pkt->addr`, used by crypto.c and decrypt.c;
absent from this snapshot's signsky.h) and the 2048-byte buffer. -/

structure Packet where
  length : Nat
  target : Nat
  addrIp : Nat
  addrPort : Nat
  buf : List Nat
deriving DecidableEq

/-- Modelled from the spec: `signsky_packet_head` and `signsky_packet_tail`
are called by encrypt.c, decrypt.c and crypto.c but are missing from this
snapshot's packet.c (which only has `signsky_packet_start` and
`signsky_packet_data`).  Per the spec head, data and tail are views into
the same buffer: the head is the buffer start (the ESP header), data sits
after the 16-byte head room, the tail at `data + length`.  The header is
therefore addressed at offset 0 and data at this offset. -/
def packetDataOff : Nat := SIGNSKY_PACKET_HEAD_LEN

/-- Modelled from the spec: `signsky_packet_crypto_checklen` (called at
decrypt.c line 156 and crypto.c line 289, missing from this snapshot's
packet.c).  Per spec section 4.5 the received length must be at least
header + trailer + tag. -/
def signsky_packet_crypto_checklen (pkt : Packet) : Int :=
  if pkt.length < SIGNSKY_PACKET_HEAD_LEN + SIGNSKY_PACKET_TAIL_LEN +
      CIPHER_AES_GCM_TAG_SIZE then -1
  else 0

/-! ### Clear worker receive path (src/src/clear.c) -/

/-- Outcome of one iteration of the `clear_recv_packets` read loop. -/
inductive ClearRecvOut where
  | dropped : ClearRecvOut
  | queued (pkt : Packet) : ClearRecvOut
deriving DecidableEq

/-- One iteration of `clear_recv_packets` (src/src/clear.c lines 159-202)
for a read that returned `ret > 0` bytes (`ret = 0` is a fatal EOF and
read errors leave the loop without producing a packet).  `pool` is the
buffer from `signsky_packet_get`, `none` when the pool was empty and the
scratch `tpkt` receives the read; `encryptFull` is whether
`signsky_ring_queue(io->encrypt, pkt)` reports full.  The read deposits
the bytes at the data offset (`signsky_platform_tundev_read`).  Note the
source drops `ret <= SIGNSKY_PACKET_MIN_LEN`, minimum-length reads
included. -/
def clear_recv_one (pool : Option Packet) (ret : Nat) (incoming : List Nat)
    (encryptFull : Bool) : ClearRecvOut :=
  match pool with
  | none => ClearRecvOut.dropped
  | some pkt =>
    if ret ≤ SIGNSKY_PACKET_MIN_LEN then ClearRecvOut.dropped
    else if encryptFull then ClearRecvOut.dropped
    else ClearRecvOut.queued
      { pkt with length := ret,
                 target := SIGNSKY_PROC_ENCRYPT,
                 buf := writeBytes pkt.buf packetDataOff (incoming.take ret) }

/-! ### The AEAD primitive

The spec places the cipher itself out of scope: AES-256-GCM is used as
"an opaque AEAD with a fixed 16-byte tag".  The OpenSSL
`CRYPTO_gcm128_*` calls of src/src/cipher_aes_gcm.c are external code;
they are modelled as an ideal length-preserving stream AEAD: encryption
XORs a keystream derived from the context and nonce, and the tag is a
deterministic function of context, nonce, AAD and ciphertext. -/

def aeadKeystream (ctx nonce : List Nat) (n : Nat) : List Nat :=
  (List.range n).map fun i => (ctx.sum * 131 + nonce.sum * 31 + i * 7 + 13) % 256

def aeadXor (ctx nonce data : List Nat) : List Nat :=
  List.zipWith (fun p k => p ^^^ k) data (aeadKeystream ctx nonce data.length)

def aeadTag (ctx nonce aad ct : List Nat) : List Nat :=
  (List.range CIPHER_AES_GCM_TAG_SIZE).map fun i =>
    (ctx.sum * 3 + nonce.sum * 5 + aad.sum * 7 + ct.sum * 11 + i * 13 + 1) % 256

/-- `signsky_cipher_encrypt` from src/src/cipher_aes_gcm.c lines 86-116:
encrypt `pkt->length` bytes in place at the data offset, append the
16-byte tag at `data + length`, extend the length by the tag.  The
`VERIFY(pkt->length + 16 < sizeof(pkt->buf))` aborts the process,
modelled as `none`. -/
def signsky_cipher_encrypt (ctx nonce aad : List Nat) (pkt : Packet) :
    Option Packet :=
  if pkt.length + CIPHER_AES_GCM_TAG_SIZE < SIGNSKY_PACKET_MAX_LEN then
    let ct := aeadXor ctx nonce (readBytes pkt.buf packetDataOff pkt.length)
    let tag := aeadTag ctx nonce aad ct
    some { pkt with buf := writeBytes pkt.buf packetDataOff (ct ++ tag),
                    length := pkt.length + CIPHER_AES_GCM_TAG_SIZE }
  else none

/-- Modelled from the spec: the AEAD open step of the decrypt path.  Per
spec section 4.5 the AEAD runs "in place over the ciphertext+tag region",
i.e. over the `pkt->length - 34` ciphertext bytes at the data offset
followed by the 16-byte tag, with the ciphertext replaced by plaintext
on success and a verification failure reported as -1 (`none` here).
This snapshot's cipher_aes_gcm.c `signsky_cipher_decrypt` slices the
buffer with `pkt->length` still including the 16-byte ESP header, which
disagrees with its own encrypt side; the cipher primitive being out of
scope, the spec interface is modelled.  The caller has already checked
`pkt.length ≥ 34`. -/
def signsky_cipher_decrypt (ctx nonce aad : List Nat) (pkt : Packet) :
    Option Packet :=
  let ctlen := pkt.length - SIGNSKY_PACKET_HEAD_LEN - CIPHER_AES_GCM_TAG_SIZE
  let ct := readBytes pkt.buf packetDataOff ctlen
  let tag := readBytes pkt.buf (packetDataOff + ctlen) CIPHER_AES_GCM_TAG_SIZE
  if tag = aeadTag ctx nonce aad ct then
    some { pkt with buf := writeBytes pkt.buf packetDataOff (aeadXor ctx nonce ct) }
  else none

/-! ### Encrypt worker (src/src/encrypt.c) -/

/-- Result of `encrypt_packet_process`: packet released, process aborted
by a failed `VERIFY`, or the datagram handed to the crypto queue (the
enqueue itself is not modelled; crypto.c then sends `length` bytes from
the head offset). -/
inductive EncOutcome where
  | released : EncOutcome
  | fatalStop : EncOutcome
  | sent (pkt : Packet) : EncOutcome
deriving DecidableEq

/-- `encrypt_packet_process` from src/src/encrypt.c lines 109-170,
parametrised by the host endianness `e`.  The header stores are the
plain assignments `hdr->pn = state.seqnr++`, `hdr->esp.spi = state.spi`,
`hdr->esp.seq = hdr->pn & 0xffffffff` (host byte order at offsets 8, 0
and 4; there is no `htobe` conversion in this function), and the nonce
and AAD are `memcpy`s of the in-memory bytes of salt, spi and `hdr->pn`. -/
def encrypt_packet_process (e : Endian) (tx : KeySlot) (st : TxState)
    (pkt : Packet) : KeySlot × TxState × EncOutcome :=
  let inst := encrypt_install_pending tx st
  let tx' := inst.1
  let st' := inst.2
  match st'.cipher with
  | none => (tx', st', EncOutcome.released)
  | some ctx =>
    let overhead := SIGNSKY_PACKET_HEAD_LEN + SIGNSKY_PACKET_TAIL_LEN +
      CIPHER_AES_GCM_TAG_SIZE
    if (pkt.length + overhead) % U64_MOD < pkt.length ∨
        pkt.length + overhead > SIGNSKY_PACKET_MAX_LEN then
      (tx', st', EncOutcome.released)
    else
      let pn := st'.seqnr
      let st2 := { st' with seqnr := (pn + 1) % U64_MOD }
      let hdrBytes := hostBytes e 4 st'.spi ++ hostBytes e 4 (pn % U32_MOD) ++
        hostBytes e 8 pn
      let buf1 := writeBytes pkt.buf 0 hdrBytes
      let buf2 := writeBytes buf1 (packetDataOff + pkt.length) [0, IPPROTO_IPV4]
      let pkt1 := { pkt with buf := buf2,
                             length := pkt.length + SIGNSKY_PACKET_TAIL_LEN }
      let nonce := hostBytes e 4 st'.salt ++ hostBytes e 8 pn
      let aad := hostBytes e 4 st'.spi ++ hostBytes e 8 pn
      match signsky_cipher_encrypt ctx nonce aad pkt1 with
      | none => (tx', st2, EncOutcome.fatalStop)
      | some pkt2 =>
        if pkt2.length + SIGNSKY_PACKET_HEAD_LEN < SIGNSKY_PACKET_MAX_LEN then
          (tx', st2, EncOutcome.sent
            { pkt2 with length := pkt2.length + SIGNSKY_PACKET_HEAD_LEN })
        else (tx', st2, EncOutcome.fatalStop)

/-! ### Decrypt worker (src/src/decrypt.c) -/

/-- The shared peer address cell (`signsky->peer_ip`, `signsky->peer_port`). -/
structure Peer where
  ip : Nat
  port : Nat
deriving DecidableEq

/-- The shared state the decrypt path updates: the anti-replay window
(`io->arwin`) and the peer address cell. -/
structure DecShared where
  arwin : ArWin
  peer : Peer
deriving DecidableEq

/-- `decrypt_with_slot` from src/src/decrypt.c lines 190-246,
parametrised by the host endianness.  `hdr` holds the already-converted
header values that `decrypt_packet_process` wrote back into the packet
head; nonce and AAD are `memcpy`s of the in-memory (host-order) bytes of
`sa->salt`, `sa->spi` and `hdr->pn`.  Returns the C return value with
the updated shared state and the possibly modified packet (the
clear-queue enqueue is not modelled: on full the packet is released and
the function still returns 0). -/
def decrypt_with_slot (e : Endian) (sa : SA) (hdr : HdrV) (sh : DecShared)
    (pkt : Packet) : Int × DecShared × Packet :=
  match sa.cipher with
  | none => (-1, sh, pkt)
  | some ctx =>
    if hdr.spi ≠ sa.spi then (-1, sh, pkt)
    else if decrypt_arwin_check sh.arwin hdr = -1 then (-1, sh, pkt)
    else
      let nonce := hostBytes e 4 sa.salt ++ hostBytes e 8 hdr.pn
      let aad := hostBytes e 4 sa.spi ++ hostBytes e 8 hdr.pn
      match signsky_cipher_decrypt ctx nonce aad pkt with
      | none => (-1, sh, pkt)
      | some pkt1 =>
        let arwin' := decrypt_arwin_update sh.arwin hdr
        let peer' := if pkt.addrIp ≠ sh.peer.ip ∨ pkt.addrPort ≠ sh.peer.port
          then Peer.mk pkt.addrIp pkt.addrPort else sh.peer
        let len' := pkt1.length - SIGNSKY_PACKET_HEAD_LEN -
          SIGNSKY_PACKET_TAIL_LEN - CIPHER_AES_GCM_TAG_SIZE
        let pkt2 := { pkt1 with length := len' }
        let tail := readBytes pkt2.buf (packetDataOff + len')
          SIGNSKY_PACKET_TAIL_LEN
        if tail.getD 0 0 ≠ 0 ∨ tail.getD 1 0 ≠ IPPROTO_IP then
          (-1, DecShared.mk arwin' peer', pkt2)
        else
          (0, DecShared.mk arwin' peer',
            { pkt2 with target := SIGNSKY_PROC_CLEAR })

/-- Outcome of `decrypt_packet_process` for one packet. -/
inductive DecOutcome where
  | released : DecOutcome
  | queued (pkt : Packet) : DecOutcome
deriving DecidableEq

/-- The local and shared state after `decrypt_packet_process`. -/
structure DecProcOut where
  rx : KeySlot
  slot1 : SA
  slot2 : SA
  shared : DecShared
  out : DecOutcome
deriving DecidableEq

/-- `decrypt_packet_process` from src/src/decrypt.c lines 146-185: key
install, length pre-check, big-endian header parse (`be32toh`/`be64toh`
at lines 162-164, written back into the head in host order), then the
two RX slots tried in order; a success under `slot_2` promotes the
pending SA into `slot_1` and wipes `slot_2`.  The packet and shared
state mutated by a failed `slot_1` attempt (a trailer reject happens
after the window and peer updates and after the length reduction) are
threaded into the `slot_2` attempt exactly as the in-place C code does. -/
def decrypt_packet_process (e : Endian) (rx : KeySlot) (slot1 slot2 : SA)
    (sh : DecShared) (pkt : Packet) : DecProcOut :=
  let inst := decrypt_keys_install rx slot1 slot2
  let rx' := inst.1
  let s1 := inst.2.1
  let s2 := inst.2.2
  if signsky_packet_crypto_checklen pkt = -1 then
    DecProcOut.mk rx' s1 s2 sh DecOutcome.released
  else
    let spi := parseBE (readBytes pkt.buf 0 4)
    let seq := parseBE (readBytes pkt.buf 4 4)
    let pn := parseBE (readBytes pkt.buf 8 8)
    let hdr := HdrV.mk spi seq pn
    let hostHdr := hostBytes e 4 spi ++ hostBytes e 4 seq ++ hostBytes e 8 pn
    let pkt0 := { pkt with buf := writeBytes pkt.buf 0 hostHdr }
    let try1 := decrypt_with_slot e s1 hdr sh pkt0
    if try1.1 ≠ -1 then
      DecProcOut.mk rx' s1 s2 try1.2.1 (DecOutcome.queued try1.2.2)
    else
      let try2 := decrypt_with_slot e s2 hdr try1.2.1 try1.2.2
      if try2.1 = -1 then
        DecProcOut.mk rx' s1 s2 try2.2.1 DecOutcome.released
      else
        DecProcOut.mk rx' s2 (SA.mk 0 0 0 none) try2.2.1
          (DecOutcome.queued try2.2.2)

/-! ### Concrete round-trip inputs (spec section 8 scenario 2 values) -/

def keyC1 : List Nat := List.range 32

/-- The 12-byte plaintext "ABCDEFGHIJKL". -/
def ptC1 : List Nat := [65, 66, 67, 68, 69, 70, 71, 72, 73, 74, 75, 76]

/-- An EMPTY shared key slot (no pending key, installs are no-ops). -/
def slotEmptyC1 : KeySlot := KeySlot.mk 0 SIGNSKY_KEY_EMPTY (List.replicate 32 0)

def txC1 : TxState := TxState.mk 0xDEADBEEF 0x01020304 1 (some keyC1)

def pktC1 : Packet :=
  Packet.mk 12 SIGNSKY_PROC_ENCRYPT 0x0A000001 9000
    (writeBytes (List.replicate 2048 0) packetDataOff ptC1)

def encOutPkt : EncOutcome → Packet
  | EncOutcome.sent p => p
  | EncOutcome.released => Packet.mk 0 0 0 0 []
  | EncOutcome.fatalStop => Packet.mk 0 0 0 0 []

/-- The datagram the encrypt worker emits on a little-endian host. -/
def sentLE : Packet :=
  encOutPkt (encrypt_packet_process Endian.little slotEmptyC1 txC1 pktC1).2.2

/-- The datagram the encrypt worker emits on a big-endian host. -/
def sentBE : Packet :=
  encOutPkt (encrypt_packet_process Endian.big slotEmptyC1 txC1 pktC1).2.2

/-- The RX SA sharing key, salt and SPI with `txC1`. -/
def rxC1 : SA := SA.mk 0xDEADBEEF 0x01020304 1 (some keyC1)

def rxNone : SA := SA.mk 0 0 0 none

def shC1 : DecShared := DecShared.mk (ArWin.mk 0 0) (Peer.mk 0x0A000002 9999)

/-- The emitted datagram as received by the decrypt worker (little-endian
host pipeline). -/
def inLE : Packet :=
  Packet.mk sentLE.length SIGNSKY_PROC_DECRYPT 0x0A000002 9999 sentLE.buf

/-- The emitted datagram as received by the decrypt worker (big-endian
host pipeline). -/
def inBE : Packet :=
  Packet.mk sentBE.length SIGNSKY_PROC_DECRYPT 0x0A000002 9999 sentBE.buf

/-- Claim C2, evaluated at the failing input: on the (only supported)
little-endian hosts the 16 header bytes the encrypt worker emits for
`spi = 0xDEADBEEF, pn = 1` are the little-endian encodings, not the
big-endian ones, and the decrypt worker's big-endian parse of the SPI
field does not recover 0xDEADBEEF.  On a big-endian host the same
assignments do produce the big-endian wire encoding the claim
describes. -/
theorem C2_header_host_order_bug :
    readBytes sentLE.buf 0 16 =
      bytesLE 4 0xDEADBEEF ++ bytesLE 4 1 ++ bytesLE 8 1 ∧
    readBytes sentLE.buf 0 16 ≠
      bytesBE 4 0xDEADBEEF ++ bytesBE 4 1 ++ bytesBE 8 1 ∧
    parseBE (readBytes sentLE.buf 0 4) ≠ 0xDEADBEEF ∧
    readBytes sentBE.buf 0 16 =
      bytesBE 4 0xDEADBEEF ++ bytesBE 4 1 ++ bytesBE 8 1 := by
  refine ⟨by decide, by decide, by decide, by decide⟩

/-- Claim C1, evaluated at the failing input: with TX and RX SAs sharing
key `keyC1`, salt 0x01020304 and SPI 0xDEADBEEF, a fresh anti-replay
window and packet number 1, the 12-byte plaintext `ptC1` is encapsulated
into a 46-byte datagram, but the decrypt worker releases it instead of
revealing the plaintext: on a little-endian host the big-endian header
parse does not match the host-order header the encrypt worker wrote (the
SPI comparison fails), and even on a big-endian host the trailer check
rejects the packet because encrypt.c writes `next = IPPROTO_IPV4` (4)
while decrypt.c requires `next == IPPROTO_IP` (0). -/
theorem C1_roundtrip_fails :
    (encrypt_packet_process Endian.little slotEmptyC1 txC1 pktC1).2.2 =
      EncOutcome.sent sentLE ∧
    sentLE.length = 46 ∧
    (decrypt_packet_process Endian.little slotEmptyC1 rxC1 rxNone shC1
      inLE).out = DecOutcome.released ∧
    (decrypt_packet_process Endian.big slotEmptyC1 rxC1 rxNone shC1
      inBE).out = DecOutcome.released := by
  refine ⟨rfl, rfl, rfl, rfl⟩

/-! ### C9: the clear worker's minimum-length check -/

/-- Counterexample to C9: a tunnel-device read of exactly
`SIGNSKY_PACKET_MIN_LEN` (12) bytes, with a pool buffer available and
the encrypt queue not full, is dropped rather than enqueued: clear.c
drops every read with `ret <= SIGNSKY_PACKET_MIN_LEN`. -/
theorem C9_min_length_read_dropped :
    clear_recv_one (some (Packet.mk 0 0 0 0 (List.replicate 2048 0))) 12
      (List.replicate 12 1) false = ClearRecvOut.dropped ∧
    clear_recv_one (some (Packet.mk 0 0 0 0 (List.replicate 2048 0))) 12
      (List.replicate 12 1) false ≠
      ClearRecvOut.queued
        (Packet.mk 12 SIGNSKY_PROC_ENCRYPT 0 0
          (writeBytes (List.replicate 2048 0) packetDataOff
            (List.replicate 12 1))) := by
  refine ⟨rfl, by decide⟩

/-- Claim C9 (amended): in the clear worker's receive loop every read of
at most the minimum packet length (12 bytes) is dropped; every strictly
longer read into a pool buffer is assigned target ENCRYPT, gets the read
length, and is enqueued on the encrypt queue, being released back to the
pool only when that queue is full; a read into the scratch buffer is
always dropped. -/
theorem C9_clear_recv_drops (pkt : Packet) (ret : Nat)
    (incoming : List Nat) (full : Bool) :
    (ret ≤ SIGNSKY_PACKET_MIN_LEN →
      clear_recv_one (some pkt) ret incoming full = ClearRecvOut.dropped) ∧
    (ret > SIGNSKY_PACKET_MIN_LEN →
      clear_recv_one (some pkt) ret incoming false =
        ClearRecvOut.queued
          { pkt with
              length := ret,
              target := SIGNSKY_PROC_ENCRYPT,
              buf := writeBytes pkt.buf packetDataOff (incoming.take ret) } ∧
      clear_recv_one (some pkt) ret incoming true = ClearRecvOut.dropped) ∧
    clear_recv_one none ret incoming full = ClearRecvOut.dropped := by
  refine ⟨?_, ?_, rfl⟩
  · intro h
    unfold clear_recv_one
    dsimp only
    rw [if_pos h]
  · intro h
    constructor
    · unfold clear_recv_one
      dsimp only
      rw [if_neg (Nat.not_le_of_lt h), if_neg (by simp)]
    · unfold clear_recv_one
      dsimp only
      rw [if_neg (Nat.not_le_of_lt h), if_pos rfl]

/-- Witness for the amended C9: a 5-byte read is dropped, a 13-byte read
is queued with target ENCRYPT (and dropped when the queue is full). -/
theorem C9_clear_recv_drops_witness :
    clear_recv_one (some (Packet.mk 0 0 0 0 (List.replicate 2048 0))) 5
      (List.replicate 5 3) false = ClearRecvOut.dropped ∧
    clear_recv_one (some (Packet.mk 0 0 0 0 (List.replicate 2048 0))) 13
      (List.replicate 13 3) false =
      ClearRecvOut.queued
        (Packet.mk 13 SIGNSKY_PROC_ENCRYPT 0 0
          (writeBytes (List.replicate 2048 0) packetDataOff
            ((List.replicate 13 3).take 13))) ∧
    clear_recv_one (some (Packet.mk 0 0 0 0 (List.replicate 2048 0))) 13
      (List.replicate 13 3) true = ClearRecvOut.dropped :=
  ⟨(C9_clear_recv_drops (Packet.mk 0 0 0 0 (List.replicate 2048 0)) 5
      (List.replicate 5 3) false).1 (by decide),
   ((C9_clear_recv_drops (Packet.mk 0 0 0 0 (List.replicate 2048 0)) 13
      (List.replicate 13 3) false).2.1 (by decide)).1,
   ((C9_clear_recv_drops (Packet.mk 0 0 0 0 (List.replicate 2048 0)) 13
      (List.replicate 13 3) false).2.1 (by decide)).2⟩

/-! ### C10: a trailer reject happens after the shared-state updates -/

/-- If the pre-check accepted, its conditions can be recovered. -/
theorem arwin_check_elim (aw : ArWin) (hdr : HdrV)
    (hacc : decrypt_arwin_check aw hdr = 0) :
    hdr.pn % U32_MOD = hdr.seq ∧
    (hdr.pn > aw.last ∨
      (hdr.pn ≤ aw.last ∧ hdr.pn > 0 ∧ aw.last - hdr.pn < 64 ∧
        aw.bitmap.testBit (63 - (aw.last - hdr.pn)) = false)) := by
  have hm : hdr.pn % U32_MOD = hdr.seq := by
    by_contra hne
    simp [decrypt_arwin_check, hne] at hacc
  refine ⟨hm, ?_⟩
  by_cases h1 : hdr.pn > aw.last
  · exact Or.inl h1
  · refine Or.inr ?_
    by_cases hcnd : hdr.pn > 0 ∧ SIGNSKY_ARWIN_SIZE > aw.last - hdr.pn
    · have hwin : aw.last - hdr.pn < 64 := by
        have := hcnd.2
        unfold SIGNSKY_ARWIN_SIZE at this
        omega
      refine ⟨by omega, hcnd.1, hwin, ?_⟩
      by_contra hbit
      have hbit' : aw.bitmap.testBit (63 - (aw.last - hdr.pn)) = true := by
        cases hb : aw.bitmap.testBit (63 - (aw.last - hdr.pn))
        · exact absurd hb hbit
        · rfl
      have hrej : decrypt_arwin_check aw hdr = -1 := by
        unfold decrypt_arwin_check SIGNSKY_ARWIN_SIZE
        rw [if_neg (by simp [hm]), if_neg h1, if_pos (by exact hcnd), if_pos]
        rw [and_shift_ne_iff_testBit]
        have h63 : (64 : Nat) - 1 - (aw.last - hdr.pn) =
            63 - (aw.last - hdr.pn) := by omega
        rw [h63, hbit']
      rw [hrej] at hacc
      exact absurd hacc (by decide)
    · have hrej : decrypt_arwin_check aw hdr = -1 := by
        unfold decrypt_arwin_check
        rw [if_neg (by simp [hm]), if_neg h1, if_neg hcnd]
      rw [hrej] at hacc
      exact absurd hacc (by decide)

/-- An accepted packet number always changes the anti-replay window:
either `last` advances or a previously clear bit is set. -/
theorem arwin_update_changes (aw : ArWin) (hdr : HdrV)
    (hacc : decrypt_arwin_check aw hdr = 0) :
    decrypt_arwin_update aw hdr ≠ aw := by
  obtain ⟨hm, hcase⟩ := arwin_check_elim aw hdr hacc
  intro heq
  rcases hcase with h1 | ⟨hle, hpn, hwin, hbit⟩
  · have hlast : (decrypt_arwin_update aw hdr).last = hdr.pn := by
      unfold decrypt_arwin_update
      rw [if_pos h1]
      split_ifs <;> rfl
    rw [heq] at hlast
    omega
  · have hset : (decrypt_arwin_update aw hdr).bitmap.testBit
        (63 - (aw.last - hdr.pn)) = true := by
      unfold decrypt_arwin_update
      rw [if_neg (by omega)]
      dsimp only
      have hidx : (SIGNSKY_ARWIN_SIZE - 1) - (aw.last - hdr.pn) =
          63 - (aw.last - hdr.pn) := by
        unfold SIGNSKY_ARWIN_SIZE
        omega
      rw [hidx]
      simp only [Nat.testBit_lor, Nat.shiftLeft_eq, one_mul,
        Nat.testBit_two_pow_self]
      simp
    rw [heq] at hset
    rw [hbit] at hset
    exact absurd hset (by decide)

/-- Claim C10: whenever AEAD verification succeeds under an RX SA but the
trailer check then fails, `decrypt_with_slot` drops the packet (returns
-1) only after the anti-replay window has been updated with the packet
number and the shared peer cell holds the packet's source address; the
window update never leaves the shared state unchanged. -/
theorem C10_trailer_drop_after_updates (e : Endian) (sa : SA)
    (ctx : List Nat) (hdr : HdrV) (sh : DecShared) (pkt pkt1 : Packet)
    (hc : sa.cipher = some ctx)
    (hspi : hdr.spi = sa.spi)
    (hacc : decrypt_arwin_check sh.arwin hdr = 0)
    (hdec : signsky_cipher_decrypt ctx
        (hostBytes e 4 sa.salt ++ hostBytes e 8 hdr.pn)
        (hostBytes e 4 sa.spi ++ hostBytes e 8 hdr.pn) pkt = some pkt1)
    (htail :
      (readBytes pkt1.buf
          (packetDataOff + (pkt1.length - SIGNSKY_PACKET_HEAD_LEN -
            SIGNSKY_PACKET_TAIL_LEN - CIPHER_AES_GCM_TAG_SIZE))
          SIGNSKY_PACKET_TAIL_LEN).getD 0 0 ≠ 0 ∨
      (readBytes pkt1.buf
          (packetDataOff + (pkt1.length - SIGNSKY_PACKET_HEAD_LEN -
            SIGNSKY_PACKET_TAIL_LEN - CIPHER_AES_GCM_TAG_SIZE))
          SIGNSKY_PACKET_TAIL_LEN).getD 1 0 ≠ IPPROTO_IP) :
    (decrypt_with_slot e sa hdr sh pkt).1 = -1 ∧
    (decrypt_with_slot e sa hdr sh pkt).2.1.arwin =
      decrypt_arwin_update sh.arwin hdr ∧
    (decrypt_with_slot e sa hdr sh pkt).2.1.peer =
      Peer.mk pkt.addrIp pkt.addrPort ∧
    decrypt_arwin_update sh.arwin hdr ≠ sh.arwin := by
  have hne : ¬ decrypt_arwin_check sh.arwin hdr = -1 := by
    rw [hacc]
    decide
  have hpeer : (if pkt.addrIp ≠ sh.peer.ip ∨ pkt.addrPort ≠ sh.peer.port
      then Peer.mk pkt.addrIp pkt.addrPort else sh.peer) =
      Peer.mk pkt.addrIp pkt.addrPort := by
    split_ifs with hp
    · rfl
    · push_neg at hp
      obtain ⟨hip, hport⟩ := hp
      cases hq : sh.peer
      rw [hq] at hip hport
      dsimp only at hip hport
      rw [hip, hport]
  unfold decrypt_with_slot
  rw [hc]
  dsimp only
  rw [if_neg (by simp [hspi]), if_neg hne, hdec]
  dsimp only
  rw [if_pos htail]
  refine ⟨rfl, rfl, ?_, arwin_update_changes sh.arwin hdr hacc⟩
  dsimp only
  exact hpeer

/-- The decrypted (plaintext-revealed) packet of the C10 witness run. -/
def pkt1W : Packet :=
  (signsky_cipher_decrypt keyC1
      (hostBytes Endian.big 4 0x01020304 ++ hostBytes Endian.big 8 1)
      (hostBytes Endian.big 4 0xDEADBEEF ++ hostBytes Endian.big 8 1)
      inBE).getD (Packet.mk 0 0 0 0 [])

/-- Witness for C10: the big-endian-host datagram from the round-trip
scenario passes AEAD verification under `rxC1` but fails the trailer
check (encrypt.c wrote `next = 4`, decrypt.c wants 0); the drop happens
with the window already advanced to packet number 1 and the peer cell
holding the packet's source address. -/
theorem C10_trailer_drop_after_updates_witness :
    (decrypt_with_slot Endian.big rxC1 (HdrV.mk 0xDEADBEEF 1 1) shC1
      inBE).1 = -1 ∧
    (decrypt_with_slot Endian.big rxC1 (HdrV.mk 0xDEADBEEF 1 1) shC1
      inBE).2.1.arwin =
      decrypt_arwin_update shC1.arwin (HdrV.mk 0xDEADBEEF 1 1) ∧
    (decrypt_with_slot Endian.big rxC1 (HdrV.mk 0xDEADBEEF 1 1) shC1
      inBE).2.1.peer = Peer.mk inBE.addrIp inBE.addrPort ∧
    decrypt_arwin_update shC1.arwin (HdrV.mk 0xDEADBEEF 1 1) ≠ shC1.arwin :=
  C10_trailer_drop_after_updates Endian.big rxC1 keyC1
    (HdrV.mk 0xDEADBEEF 1 1) shC1 inBE pkt1W rfl rfl (by decide) rfl
    (by decide)

end Signsky
